import Mathlib

/-!
Shallow embedding of the quarkvm chain storage layer (chain/storage.go) and of
the Set/Delete transaction (chain/set_tx.go).

Bytes are lists of naturals; the database is an association list from keys to
values, iterated in ascending byte-lexicographic key order, as avalanchego's
memdb iterates a snapshot taken when the iterator is created. Go int64 values
are Lean Int; the conversion int64 to uint64 performed by
binary.LittleEndian.PutUint64(k, uint64(t)) is toUInt64 below.

External collaborators that the source calls but whose code is outside this
repository snapshot (the codec Marshal and Unmarshal, hashing.ComputeHash160,
chain.Units, chain.MaxValueLength) are fields of a Params record, so every
theorem is stated for an arbitrary instantiation of them.
-/

abbrev Bytes := List Nat

abbrev DB := List (Bytes × Bytes)

/-- Sentinel errors of the chain package (ErrPrefixMissing and friends, plus
parser and ids errors). PanicDivByZero models the Go runtime panic raised by
the integer division in SetTx.updatePrefix when the divisor is zero: the Go
source has no guard, so reaching the division with Units equal to zero is a
runtime failure, not a normal return. -/
inductive Err where
  | InvalidKeyFormat
  | InvalidContents
  | ValueTooBig
  | PrefixMissing
  | Unauthorized
  | PrefixExpired
  | KeyMissing
  | ShortIdLenMismatch
  | PanicDivByZero
  deriving DecidableEq, Repr

instance {e a : Type} [DecidableEq e] [DecidableEq a] : DecidableEq (Except e a) := fun x y =>
  match x, y with
  | .ok u, .ok v =>
    if h : u = v then .isTrue (congrArg Except.ok h)
    else .isFalse fun hh => h (Except.ok.inj hh)
  | .error u, .error v =>
    if h : u = v then .isTrue (congrArg Except.error h)
    else .isFalse fun hh => h (Except.error.inj hh)
  | .ok _, .error _ => .isFalse fun hh => Except.noConfusion hh
  | .error _, .ok _ => .isFalse fun hh => Except.noConfusion hh

/-- chain.PrefixInfo: the owner address bytes, Go int64 timestamps and the
rent counter Units, and the 20-byte derived RawPrefix identifier. -/
structure PrefixInfo where
  Owner : Bytes
  Created : Int
  LastUpdated : Int
  Expiry : Int
  Units : Int
  RawPrefix : Bytes
  deriving DecidableEq, Repr

/-- chain.SetTx with the BaseTx fields it reads flattened in. -/
structure SetTx where
  Prefix : Bytes
  Sender : Bytes
  Key : Bytes
  Value : Bytes
  deriving DecidableEq, Repr

/-- External code the storage layer calls whose sources are not part of this
snapshot: Units is chain.Units (the spec's valueUnitCost), Marshal and
Unmarshal the record codec, ComputeHash160 the avalanchego 20-byte hash, and
MaxValueLength the maximum value size. -/
structure Params where
  Units : Bytes → Int
  Marshal : PrefixInfo → Bytes
  Unmarshal : Bytes → Except Err PrefixInfo
  ComputeHash160 : Bytes → Bytes
  MaxValueLength : Nat

def blockPrefix : Nat := 0

def txPrefix : Nat := 1

def infoPrefix : Nat := 2

def keyPrefix : Nat := 3

def expiryPrefix : Nat := 4

def pruningPrefix : Nat := 5

def shortIDLen : Nat := 20

/-- Modelled from the spec: parser.Delimiter is not under src; the spec fixes
only that it is a single delimiter byte, here the slash byte. -/
def delimiter : Nat := 47

/-- binary.LittleEndian.PutUint64: the eight bytes of n, least significant
byte first. -/
def putUint64LE (n : Nat) : Bytes := (List.range 8).map fun i => n / 256 ^ i % 256

/-- The uint64(t) conversion of a Go int64: two's complement bits of t. -/
def toUInt64 (t : Int) : Nat := (t % (2 ^ 64 : Int)).toNat

/-- binary.LittleEndian.Uint64 over the first eight bytes. -/
def getUint64LE (b : Bytes) : Nat := (b.take 8).foldr (fun x acc => x + 256 * acc) 0

/-- The int64(u) conversion of a Go uint64. -/
def int64OfUInt64 (n : Nat) : Int := if n < 2 ^ 63 then (n : Int) else (n : Int) - 2 ^ 64

/-- Go bytes.Compare: minus one, zero or one by byte-lexicographic order. -/
def bytesCompare : Bytes → Bytes → Int
  | [], [] => 0
  | [], _ :: _ => -1
  | _ :: _, [] => 1
  | a :: as, b :: bs => if a < b then -1 else if b < a then 1 else bytesCompare as bs

/-- chain.PrefixInfoKey: tag infoPrefix, delimiter, prefix text. -/
def PrefixInfoKey (pfx : Bytes) : Bytes := infoPrefix :: delimiter :: pfx

/-- chain.PrefixValueKey: tag keyPrefix, delimiter, raw prefix, delimiter, key. -/
def PrefixValueKey (rpfx : Bytes) (key : Bytes) : Bytes :=
  keyPrefix :: delimiter :: (rpfx ++ delimiter :: key)

/-- chain.RangeTimeKey: tag, delimiter, little-endian timestamp, delimiter. -/
def RangeTimeKey (p : Nat) (t : Int) : Bytes :=
  p :: delimiter :: (putUint64LE (toUInt64 t) ++ [delimiter])

/-- chain.specificTimeKey: tag, delimiter, little-endian timestamp, delimiter,
raw prefix. -/
def specificTimeKey (p : Nat) (t : Int) (rpfx : Bytes) : Bytes :=
  p :: delimiter :: (putUint64LE (toUInt64 t) ++ delimiter :: rpfx)

/-- chain.PrefixExpiryKey. -/
def PrefixExpiryKey (expiry : Int) (rpfx : Bytes) : Bytes :=
  specificTimeKey expiryPrefix expiry rpfx

/-- chain.PrefixPruningKey. -/
def PrefixPruningKey (expired : Int) (rpfx : Bytes) : Bytes :=
  specificTimeKey pruningPrefix expired rpfx

def specificTimeKeyLen : Nat := 2 + 8 + 1 + shortIDLen

/-- ids.ShortEmpty: the zero 20-byte identifier. -/
def shortEmpty : Bytes := List.replicate 20 0

/-- ids.ToShortID: errors unless the input is exactly twenty bytes. -/
def ToShortID (b : Bytes) : Except Err Bytes :=
  if b.length = 20 then .ok b else .error .ShortIdLenMismatch

/-- chain.extractSpecificTimeKey: length check, then the little-endian
timestamp at offset two and the raw prefix at offset eleven. -/
def extractSpecificTimeKey (k : Bytes) : Except Err (Int × Bytes) :=
  if k.length ≠ specificTimeKeyLen then .error .InvalidKeyFormat
  else
    match ToShortID (k.drop (2 + 8 + 1)) with
    | .error e => .error e
    | .ok r => .ok (int64OfUInt64 (getUint64LE (k.drop 2)), r)

def dbGet : DB → Bytes → Option Bytes
  | [], _ => none
  | e :: es, k => if e.1 = k then some e.2 else dbGet es k

def dbDelete : DB → Bytes → DB
  | [], _ => []
  | e :: es, k => if e.1 = k then dbDelete es k else e :: dbDelete es k

def dbPut (db : DB) (k v : Bytes) : DB := (k, v) :: dbDelete db k

/-- database.ClearPrefix: delete every key that starts with p. -/
def clearPrefix (db : DB) (p : Bytes) : DB :=
  db.filter fun e => !(p.isPrefixOf e.1)

def insertSorted (e : Bytes × Bytes) : List (Bytes × Bytes) → List (Bytes × Bytes)
  | [] => [e]
  | f :: fs => if bytesCompare e.1 f.1 ≤ 0 then e :: f :: fs else f :: insertSorted e fs

def sortEntries : List (Bytes × Bytes) → List (Bytes × Bytes)
  | [] => []
  | e :: es => insertSorted e (sortEntries es)

/-- memdb NewIteratorWithStart: a snapshot of the entries whose key is at
least start, in ascending key order. -/
def iterFrom (db : DB) (start : Bytes) : List (Bytes × Bytes) :=
  sortEntries (db.filter fun e => decide (bytesCompare start e.1 ≤ 0))

/-- chain.GetPrefixInfo: absence is (nil, false) with no error; a stored
record is decoded with Unmarshal. -/
def GetPrefixInfo (P : Params) (db : DB) (pfx : Bytes) : Except Err (Option PrefixInfo) :=
  match dbGet db (PrefixInfoKey pfx) with
  | none => .ok none
  | some v =>
    match P.Unmarshal v with
    | .error e => .error e
    | .ok i => .ok (some i)

/-- chain.GetValue: a missing namespace or a missing key is (nil, false), not
an error. -/
def GetValue (P : Params) (db : DB) (pfx key : Bytes) : Except Err (Option Bytes) :=
  match GetPrefixInfo P db pfx with
  | .error e => .error e
  | .ok none => .ok none
  | .ok (some i) => .ok (dbGet db (PrefixValueKey i.RawPrefix key))

/-- chain.RawPrefix: hash of prefix, delimiter, little-endian block time. -/
def RawPrefix (P : Params) (pfx : Bytes) (blockTime : Int) : Except Err Bytes :=
  ToShortID (P.ComputeHash160 (pfx ++ delimiter :: putUint64LE (toUInt64 blockTime)))

/-- chain.PutPrefixInfo: fill RawPrefix when it is empty, delete the stale
expiry entry when lastExpiry is non-negative, write the new expiry entry
holding the prefix text, then write the record. -/
def PutPrefixInfo (P : Params) (db : DB) (pfx : Bytes) (i : PrefixInfo) (lastExpiry : Int) :
    Except Err DB :=
  match (if i.RawPrefix = shortEmpty then (RawPrefix P pfx i.Created).map (fun r => { i with RawPrefix := r }) else .ok i) with
  | .error e => .error e
  | .ok j =>
    let db1 := if 0 ≤ lastExpiry then dbDelete db (PrefixExpiryKey lastExpiry j.RawPrefix) else db
    let db2 := dbPut db1 (PrefixExpiryKey j.Expiry j.RawPrefix) pfx
    .ok (dbPut db2 (PrefixInfoKey pfx) (P.Marshal j))

/-- chain.PutPrefixKey. -/
def PutPrefixKey (P : Params) (db : DB) (pfx key value : Bytes) : Except Err DB :=
  match GetPrefixInfo P db pfx with
  | .error e => .error e
  | .ok none => .error .PrefixMissing
  | .ok (some i) => .ok (dbPut db (PrefixValueKey i.RawPrefix key) value)

/-- chain.DeletePrefixKey. -/
def DeletePrefixKey (P : Params) (db : DB) (pfx key : Bytes) : Except Err DB :=
  match GetPrefixInfo P db pfx with
  | .error e => .error e
  | .ok none => .error .PrefixMissing
  | .ok (some i) => .ok (dbDelete db (PrefixValueKey i.RawPrefix key))

/-- Modelled from the spec: parser.CheckKey is not under src; the spec's
content validation rejects key text holding the delimiter byte. -/
def CheckKey (key : Bytes) : Except Err Unit :=
  if delimiter ∈ key then .error .InvalidContents else .ok ()

/-- Tail of chain.SetTx.updatePrefix after the value write or delete: the rent
division (a Go runtime panic when the recomputed Units is zero, modelled as
the error PanicDivByZero on the partially written database), then the
re-indexing PutPrefixInfo with the previous expiry. -/
def updatePrefixFinish (P : Params) (s : SetTx) (blockTime : Int) (i : PrefixInfo)
    (timeRemaining : Int) (db : DB) : Except Err Unit × DB :=
  if i.Units = 0 then (.error .PanicDivByZero, db)
  else
    let newTimeRemaining := Int.tdiv timeRemaining i.Units
    let lastExpiry := i.Expiry
    let j := { i with LastUpdated := blockTime, Expiry := blockTime + newTimeRemaining }
    match PutPrefixInfo P db s.Prefix j lastExpiry with
    | .error e => (.error e, db)
    | .ok db2 => (.ok (), db2)

/-- chain.SetTx.updatePrefix. -/
def updatePrefix (P : Params) (s : SetTx) (blockTime : Int) (i : PrefixInfo) (db : DB) :
    Except Err Unit × DB :=
  match GetValue P db s.Prefix s.Key with
  | .error e => (.error e, db)
  | .ok vOpt =>
    let timeRemaining := (i.Expiry - i.LastUpdated) * i.Units
    if s.Value = [] then
      match vOpt with
      | none => (.error .KeyMissing, db)
      | some v =>
        let j := { i with Units := i.Units - P.Units v }
        match DeletePrefixKey P db s.Prefix s.Key with
        | .error e => (.error e, db)
        | .ok db1 => updatePrefixFinish P s blockTime j timeRemaining db1
    else
      let j :=
        match vOpt with
        | some v => { i with Units := i.Units - P.Units v + P.Units s.Value }
        | none => { i with Units := i.Units + P.Units s.Value }
      match PutPrefixKey P db s.Prefix s.Key s.Value with
      | .error e => (.error e, db)
      | .ok db1 => updatePrefixFinish P s blockTime j timeRemaining db1

/-- chain.SetTx.Execute: key format check, value size check, namespace
presence, ownership, non-expiry, then updatePrefix. -/
def SetTx.Execute (P : Params) (s : SetTx) (blockTime : Int) (db : DB) :
    Except Err Unit × DB :=
  match CheckKey s.Key with
  | .error e => (.error e, db)
  | .ok _ =>
    if P.MaxValueLength < s.Value.length then (.error .ValueTooBig, db)
    else
      match GetPrefixInfo P db s.Prefix with
      | .error e => (.error e, db)
      | .ok none => (.error .PrefixMissing, db)
      | .ok (some i) =>
        if i.Owner = s.Sender then
          if i.Expiry < blockTime then (.error .PrefixExpired, db)
          else updatePrefix P s blockTime i db
        else (.error .Unauthorized, db)

/-- Loop of chain.ExpireNext over the iterator snapshot. The first branch
mirrors the source's dead skip branch, bytes.Compare(startKey, curKey) < -1,
which never fires because bytes.Compare only returns -1, 0 or 1. Errors leave
the deletions already applied in place, as the Go code does. -/
def expireLoop (startKey endKey : Bytes) : List (Bytes × Bytes) → DB → Except Err Unit × DB
  | [], db => (.ok (), db)
  | (curKey, curVal) :: rest, db =>
    if bytesCompare startKey curKey < -1 then expireLoop startKey endKey rest db
    else if 0 < bytesCompare curKey endKey then (.ok (), db)
    else
      let db1 := dbDelete db curKey
      let db2 := dbDelete db1 (PrefixInfoKey curVal)
      match extractSpecificTimeKey curKey with
      | .error e => (.error e, db2)
      | .ok (expired, rpfx) =>
        expireLoop startKey endKey rest (dbPut db2 (PrefixPruningKey expired rpfx) [])

/-- chain.ExpireNext. -/
def ExpireNext (db : DB) (parent current : Int) : Except Err Unit × DB :=
  expireLoop (RangeTimeKey expiryPrefix parent) (RangeTimeKey expiryPrefix current)
    (iterFrom db (RangeTimeKey expiryPrefix parent)) db

def maxInt64 : Int := 2 ^ 63 - 1

/-- Loop of chain.PruneNext over the iterator snapshot, threading the source's
local removals counter, whose final value the Go function drops. The guard
limit less-or-equal removals mirrors the loop condition removals < limit. -/
def pruneLoop (startKey endKey : Bytes) (limit : Int) :
    List (Bytes × Bytes) → Int → DB → (Except Err Unit × DB) × Int
  | [], removals, db => ((.ok (), db), removals)
  | (curKey, _) :: rest, removals, db =>
    if limit ≤ removals then ((.ok (), db), removals)
    else if bytesCompare startKey curKey < -1 then pruneLoop startKey endKey limit rest removals db
    else if 0 < bytesCompare curKey endKey then ((.ok (), db), removals)
    else
      match extractSpecificTimeKey curKey with
      | .error e => ((.error e, db), removals)
      | .ok (_, rpfx) =>
        let db1 := dbDelete db curKey
        let db2 := clearPrefix db1 (PrefixValueKey rpfx [])
        pruneLoop startKey endKey limit rest (removals + 1) db2

/-- chain.PruneNext: the Go signature surfaces only an error, no count. -/
def PruneNext (db : DB) (limit : Int) : Except Err Unit × DB :=
  (pruneLoop (RangeTimeKey pruningPrefix 0) (RangeTimeKey pruningPrefix maxInt64) limit
    (iterFrom db (RangeTimeKey pruningPrefix 0)) 0 db).1

/-- The final value of the removals counter that chain.PruneNext computes but
does not return. -/
def pruneNextCount (db : DB) (limit : Int) : Int :=
  (pruneLoop (RangeTimeKey pruningPrefix 0) (RangeTimeKey pruningPrefix maxInt64) limit
    (iterFrom db (RangeTimeKey pruningPrefix 0)) 0 db).2

/-- chain.KeyValue. -/
structure KeyValue where
  Key : Bytes
  Value : Bytes
  deriving DecidableEq, Repr

/-- chain.Op, the options accumulator of Range. -/
structure Op where
  key : Bytes
  rangeEnd : Bytes
  rangeLimit : Nat
  deriving Repr

def applyOpts (o : Op) (opts : List (Op → Op)) : Op := opts.foldl (fun a f => f a) o

/-- chain.WithRangeEnd. -/
def WithRangeEnd (endB : Bytes) : Op → Op := fun o => { o with rangeEnd := endB }

/-- chain.WithRangeLimit. -/
def WithRangeLimit (limit : Nat) : Op → Op := fun o => { o with rangeLimit := limit }

/-- Loop of chain.Range over the iterator snapshot: stop at the limit, take an
exact start-key match, skip on the dead comparison branch, and otherwise stop
unless a range end is set and still ahead. Every returned key is the stored
key with the 23-byte tag, delimiter, raw prefix, delimiter header dropped. -/
def rangeLoop (startKey endKey : Bytes) (limit : Nat) :
    List (Bytes × Bytes) → List KeyValue → List KeyValue
  | [], kvs => kvs
  | (curKey, curVal) :: rest, kvs =>
    if 0 < limit ∧ kvs.length = limit then kvs
    else
      let formattedKey := curKey.drop (2 + shortIDLen + 1)
      let comp := bytesCompare startKey curKey
      if comp = 0 then rangeLoop startKey endKey limit rest (kvs ++ [⟨formattedKey, curVal⟩])
      else if comp < -1 then rangeLoop startKey endKey limit rest kvs
      else if endKey.length = 0 then kvs
      else if 0 ≤ bytesCompare curKey endKey then kvs
      else rangeLoop startKey endKey limit rest (kvs ++ [⟨formattedKey, curVal⟩])

/-- chain.Range. -/
def Range (P : Params) (db : DB) (pfx key : Bytes) (opts : List (Op → Op)) :
    Except Err (List KeyValue) :=
  match GetPrefixInfo P db pfx with
  | .error e => .error e
  | .ok none => .error .PrefixMissing
  | .ok (some info) =>
    let ret := applyOpts { key := PrefixValueKey info.RawPrefix key, rangeEnd := [], rangeLimit := 0 } opts
    let startKey := ret.key
    let endKey :=
      if 0 < ret.rangeEnd.length then
        if [keyPrefix, delimiter].isPrefixOf ret.rangeEnd then ret.rangeEnd
        else PrefixValueKey info.RawPrefix ret.rangeEnd
      else []
    .ok (rangeLoop startKey endKey ret.rangeLimit (iterFrom db startKey) [])

/-! Concrete instantiations used by the closed theorems and witnesses. -/

/-- A positive unit-cost function standing in for chain.Units. -/
def unitLen : Bytes → Int := fun v => (v.length : Int) + 1

/-- A constant 20-byte hash standing in for hashing.ComputeHash160. -/
def hashZero : Bytes → Bytes := fun _ => List.replicate 20 0

/-- A claimed, unexpired namespace holding exactly one key whose unit cost
equals its stored Units: deleting that key drives Units to zero. -/
def infoA : PrefixInfo :=
  { Owner := [8], Created := 1, LastUpdated := 1, Expiry := 10, Units := 2,
    RawPrefix := List.replicate 20 1 }

def PA : Params :=
  { Units := unitLen, Marshal := fun _ => [0], Unmarshal := fun _ => .ok infoA,
    ComputeHash160 := hashZero, MaxValueLength := 1024 }

/-- The namespace record for prefix [112] plus its single value record. -/
def dbA : DB :=
  [(PrefixInfoKey [112], [99]), (PrefixValueKey (List.replicate 20 1) [107], [118])]

/-- A delete transaction (empty Value) by the owner for the only stored key. -/
def sDel : SetTx := { Prefix := [112], Sender := [8], Key := [107], Value := [] }

/-- A set transaction whose sender is not the owner and whose key holds the
delimiter byte, so it fails key validation. -/
def sBadKey : SetTx := { Prefix := [112], Sender := [9], Key := [47], Value := [118] }

/-- A well-formed set transaction whose sender is not the owner. -/
def sAuthBad : SetTx := { Prefix := [112], Sender := [9], Key := [107], Value := [118] }

def rC3 : Bytes := List.replicate 20 9

/-- One expiry-schedule entry with timestamp 513, outside [0, 300], plus the
PrefixInfo record its value points at. -/
def dbE : DB := [(PrefixExpiryKey 513 rC3, [113]), (PrefixInfoKey [113], [99])]

def rpA : Bytes := List.replicate 20 10

def rpB : Bytes := List.replicate 20 11

def rpC : Bytes := List.replicate 20 12

/-- Three pruning-schedule entries, value records under two of the raw
prefixes, and an unrelated PrefixInfo record. -/
def dbP : DB :=
  [(PrefixPruningKey 1 rpA, []), (PrefixPruningKey 2 rpB, []), (PrefixPruningKey 3 rpC, []),
   (PrefixValueKey rpA [107], [118]), (PrefixValueKey rpB [108], [119]),
   (PrefixInfoKey [112], [99])]

def infoR : PrefixInfo :=
  { Owner := [7], Created := 0, LastUpdated := 0, Expiry := 10, Units := 1,
    RawPrefix := List.replicate 20 2 }

def PR : Params :=
  { Units := unitLen, Marshal := fun _ => [0], Unmarshal := fun _ => .ok infoR,
    ComputeHash160 := hashZero, MaxValueLength := 1024 }

def dbR : DB :=
  [(PrefixInfoKey [112], [99]), (PrefixValueKey (List.replicate 20 2) [107], [118])]

/-- A record with a filled (non-empty) RawPrefix for the PutPrefixInfo claim. -/
def infoE : PrefixInfo :=
  { Owner := [7], Created := 0, LastUpdated := 0, Expiry := 9, Units := 1,
    RawPrefix := List.replicate 20 3 }

/-! Helper lemmas about the database model and the byte comparison. -/

theorem dbGet_dbDelete_self (db : DB) (k : Bytes) : dbGet (dbDelete db k) k = none := by
  induction db with
  | nil => rfl
  | cons e es ih =>
    by_cases h : e.1 = k
    · simpa [dbDelete, h] using ih
    · simp [dbDelete, dbGet, h, ih]

theorem dbGet_dbDelete_ne (db : DB) (k k2 : Bytes) (h : k2 ≠ k) :
    dbGet (dbDelete db k) k2 = dbGet db k2 := by
  induction db with
  | nil => rfl
  | cons e es ih =>
    by_cases he : e.1 = k
    · have hk : k ≠ k2 := fun hh => h hh.symm
      simp [dbDelete, dbGet, he, hk, ih]
    · by_cases he2 : e.1 = k2
      · simp [dbDelete, dbGet, he, he2, h]
      · simp [dbDelete, dbGet, he, he2, ih]

theorem dbGet_dbPut_self (db : DB) (k v : Bytes) : dbGet (dbPut db k v) k = some v := by
  simp [dbPut, dbGet]

theorem dbGet_dbPut_ne (db : DB) (k v k2 : Bytes) (h : k2 ≠ k) :
    dbGet (dbPut db k v) k2 = dbGet db k2 := by
  have hk : k ≠ k2 := fun hh => h hh.symm
  simp [dbPut, dbGet, hk, dbGet_dbDelete_ne db k k2 h]

theorem dbGet_eq_none (db : DB) (k : Bytes) (h : dbGet db k = none) :
    ∀ e ∈ db, e.1 ≠ k := by
  induction db with
  | nil => intro e he; cases he
  | cons f fs ih =>
    intro e he
    by_cases hf : f.1 = k
    · simp [dbGet, hf] at h
    · rcases List.mem_cons.mp he with rfl | he2
      · exact hf
      · exact ih (by simpa [dbGet, hf] using h) e he2

theorem bytesCompare_ge : ∀ a b : Bytes, -1 ≤ bytesCompare a b
  | [], [] => by norm_num [bytesCompare]
  | [], _ :: _ => by norm_num [bytesCompare]
  | _ :: _, [] => by norm_num [bytesCompare]
  | a :: as, b :: bs => by
    simp only [bytesCompare]
    split
    · norm_num
    · split
      · norm_num
      · exact bytesCompare_ge as bs

theorem bytesCompare_eq_zero : ∀ {a b : Bytes}, bytesCompare a b = 0 → a = b
  | [], [] => fun _ => rfl
  | [], _ :: _ => by intro h; simp [bytesCompare] at h
  | _ :: _, [] => by intro h; simp [bytesCompare] at h
  | a :: as, b :: bs => by
    intro h
    simp only [bytesCompare] at h
    split at h
    · omega
    next hab =>
      split at h
      · omega
      next hba =>
        have hab2 : a = b := by omega
        have htl : as = bs := bytesCompare_eq_zero h
        rw [hab2, htl]

theorem mem_insertSorted : ∀ {l : List (Bytes × Bytes)} {x e : Bytes × Bytes},
    x ∈ insertSorted e l → x = e ∨ x ∈ l
  | [], x, e => by intro h; simp [insertSorted] at h; exact Or.inl h
  | f :: fs, x, e => by
    intro h
    rw [insertSorted] at h
    split at h
    · rcases List.mem_cons.mp h with rfl | h2
      · exact Or.inl rfl
      · exact Or.inr h2
    · rcases List.mem_cons.mp h with rfl | h2
      · exact Or.inr (List.mem_cons_self _ _)
      · rcases mem_insertSorted h2 with h3 | h3
        · exact Or.inl h3
        · exact Or.inr (List.mem_cons_of_mem _ h3)

theorem mem_sortEntries : ∀ {l : List (Bytes × Bytes)} {x : Bytes × Bytes},
    x ∈ sortEntries l → x ∈ l
  | [], x => by intro h; simp [sortEntries] at h
  | e :: es, x => by
    intro h
    rw [sortEntries] at h
    rcases mem_insertSorted h with rfl | h2
    · exact List.mem_cons_self _ _
    · exact List.mem_cons_of_mem _ (mem_sortEntries h2)

theorem mem_iterFrom {db : DB} {start : Bytes} {x : Bytes × Bytes}
    (h : x ∈ iterFrom db start) : x ∈ db :=
  (List.mem_filter.mp (mem_sortEntries h)).1

theorem expiryKey_ne_infoKey (t : Int) (r pfx : Bytes) :
    PrefixExpiryKey t r ≠ PrefixInfoKey pfx := by
  simp [PrefixExpiryKey, specificTimeKey, PrefixInfoKey, expiryPrefix, infoPrefix]

theorem rangeLoop_length_le (startKey endKey : Bytes) (limit : Nat) :
    ∀ (snap : List (Bytes × Bytes)) (kvs : List KeyValue), 0 < limit → kvs.length ≤ limit →
      (rangeLoop startKey endKey limit snap kvs).length ≤ limit
  | [], kvs => by intro _ h; rw [rangeLoop]; exact h
  | (curKey, curVal) :: rest, kvs => by
    intro hl hle
    simp only [rangeLoop]
    split
    · exact hle
    next hbrk =>
      have hlt : kvs.length < limit := by
        rcases Nat.lt_or_ge kvs.length limit with h | h
        · exact h
        · exact absurd ⟨hl, Nat.le_antisymm hle h⟩ hbrk
      have happ : (kvs ++ [KeyValue.mk (curKey.drop (2 + shortIDLen + 1)) curVal]).length ≤ limit := by
        simpa using hlt
      split
      · exact rangeLoop_length_le startKey endKey limit rest _ hl happ
      · split
        · exact rangeLoop_length_le startKey endKey limit rest kvs hl hle
        · split
          · exact hle
          · split
            · exact hle
            · exact rangeLoop_length_le startKey endKey limit rest _ hl happ

theorem rangeLoop_mem (startKey endKey : Bytes) (limit : Nat) :
    ∀ (snap : List (Bytes × Bytes)) (kvs : List KeyValue) (kv : KeyValue),
      kv ∈ rangeLoop startKey endKey limit snap kvs →
      kv ∈ kvs ∨ ∃ e, e ∈ snap ∧ kv = ⟨e.1.drop (2 + shortIDLen + 1), e.2⟩
  | [], kvs, kv => by intro h; rw [rangeLoop] at h; exact Or.inl h
  | (curKey, curVal) :: rest, kvs, kv => by
    intro h
    simp only [rangeLoop] at h
    split at h
    · exact Or.inl h
    · split at h
      · rcases rangeLoop_mem startKey endKey limit rest _ kv h with h2 | ⟨e, he, heq⟩
        · rcases List.mem_append.mp h2 with h3 | h3
          · exact Or.inl h3
          · right
            refine ⟨(curKey, curVal), List.mem_cons_self _ _, ?_⟩
            simpa using h3
        · exact Or.inr ⟨e, List.mem_cons_of_mem _ he, heq⟩
      · split at h
        · rcases rangeLoop_mem startKey endKey limit rest kvs kv h with h2 | ⟨e, he, heq⟩
          · exact Or.inl h2
          · exact Or.inr ⟨e, List.mem_cons_of_mem _ he, heq⟩
        · split at h
          · exact Or.inl h
          · split at h
            · exact Or.inl h
            · rcases rangeLoop_mem startKey endKey limit rest _ kv h with h2 | ⟨e, he, heq⟩
              · rcases List.mem_append.mp h2 with h3 | h3
                · exact Or.inl h3
                · right
                  refine ⟨(curKey, curVal), List.mem_cons_self _ _, ?_⟩
                  simpa using h3
              · exact Or.inr ⟨e, List.mem_cons_of_mem _ he, heq⟩

theorem rangeLoop_nil_end (startKey : Bytes) (limit : Nat) :
    ∀ (snap : List (Bytes × Bytes)) (kvs : List KeyValue),
      (∀ e ∈ snap, e.1 ≠ startKey) → rangeLoop startKey [] limit snap kvs = kvs
  | [], kvs => by intro _; rw [rangeLoop]
  | (curKey, curVal) :: rest, kvs => by
    intro h
    have hne : ¬ bytesCompare startKey curKey = 0 := fun h0 =>
      h (curKey, curVal) (List.mem_cons_self _ _) (bytesCompare_eq_zero h0).symm
    have hge : ¬ bytesCompare startKey curKey < -1 := not_lt.mpr (bytesCompare_ge _ _)
    simp only [rangeLoop, hne, hge]
    split
    · rfl
    · simp

/-! Claim theorems. -/

/-- C1: the claim says the rent recompute newTimeRemaining = timeRemaining / Units
never divides by zero for a transaction passing every preceding check, including
after a delete of the namespace's last remaining key. On the code it does divide
by zero there: with a claimed, unexpired namespace holding one key whose unit
cost equals its stored Units, the owner's delete passes every check, Units
becomes zero, and the unguarded division in updatePrefix executes with divisor
zero, a Go runtime panic modelled as the error PanicDivByZero. -/
theorem C1_rent_division_by_zero_on_full_delete :
    (SetTx.Execute PA sDel 5 dbA).1 = .error .PanicDivByZero := by decide

/-- C2: the claim says the expiry and pruning schedule key encodings are
order-preserving because the 8-byte timestamp is written big-endian. The code
writes it little-endian, so byte order disagrees with numeric order: for
timestamps 1 and 256 under the same tag and raw prefix, the key for 1 is
lexicographically greater than the key for 256. -/
theorem C2_little_endian_timestamp_breaks_order :
    (1 : Int) ≤ 256 ∧
    bytesCompare (PrefixExpiryKey 1 shortEmpty) (PrefixExpiryKey 256 shortEmpty) = 1 := by
  decide

/-- C3: the claim says ExpireNext demotes exactly the expiry-schedule entries
with timestamp in [parentTime, currentTime] and leaves entries outside that
range untouched. With little-endian keys the byte-range scan does not coincide
with the numeric range: ExpireNext 0 300 fully demotes the entry with timestamp
513 (deletes the schedule entry, deletes the PrefixInfo record stored under the
entry's value, inserts the pruning entry at the same timestamp and raw prefix)
although 513 lies outside [0, 300]. -/
theorem C3_expire_demotes_entry_outside_range :
    ¬ ((513 : Int) ≤ 300) ∧
    (ExpireNext dbE 0 300).1 = .ok () ∧
    dbGet (ExpireNext dbE 0 300).2 (PrefixExpiryKey 513 rC3) = none ∧
    dbGet (ExpireNext dbE 0 300).2 (PrefixInfoKey [113]) = none ∧
    dbGet (ExpireNext dbE 0 300).2 (PrefixPruningKey 513 rC3) = some [] := by decide

/-- C4: the claim says PruneNext processes at most limit pruning-schedule
entries per call, for each deleting the schedule entry and every value record
under its raw prefix, and returns the count of namespaces pruned. The bounded
processing holds on the concrete store below (limit 100 processes all three
entries and clears their value records while leaving an unrelated record;
limit 2 stops after two entries), and the source tracks the count in its local
removals counter, but the Go signature returns only an error and drops that
count, which the repository's own test expects to receive. -/
theorem C4_prune_bounded_but_count_dropped :
    (PruneNext dbP 100).1 = .ok () ∧
    pruneNextCount dbP 100 = 3 ∧
    dbGet (PruneNext dbP 100).2 (PrefixValueKey rpA [107]) = none ∧
    dbGet (PruneNext dbP 100).2 (PrefixPruningKey 1 rpA) = none ∧
    dbGet (PruneNext dbP 100).2 (PrefixInfoKey [112]) = some [99] ∧
    pruneNextCount dbP 2 = 2 ∧
    dbGet (PruneNext dbP 2).2 (PrefixPruningKey 3 rpC) = some [] := by decide

/-- C5: PutPrefixInfo with a supplied previous expiry (non-negative) first
deletes the stale expiry-schedule entry keyed by the previous expiry and the
record's RawPrefix, then writes the new expiry-schedule entry holding the
prefix text, then writes the PrefixInfo record; with no previous expiry
(negative) no schedule delete occurs, so every key other than the two written
ones is untouched. -/
theorem C5_put_reindexes_expiry_schedule (P : Params) (db : DB) (pfx : Bytes)
    (i : PrefixInfo) (prev : Int) (hRaw : i.RawPrefix ≠ shortEmpty) :
    (0 ≤ prev → ∃ db2, PutPrefixInfo P db pfx i prev = .ok db2 ∧
      dbGet db2 (PrefixInfoKey pfx) = some (P.Marshal i) ∧
      dbGet db2 (PrefixExpiryKey i.Expiry i.RawPrefix) = some pfx ∧
      (PrefixExpiryKey prev i.RawPrefix ≠ PrefixExpiryKey i.Expiry i.RawPrefix →
        dbGet db2 (PrefixExpiryKey prev i.RawPrefix) = none)) ∧
    (prev < 0 → ∃ db2, PutPrefixInfo P db pfx i prev = .ok db2 ∧
      ∀ k, k ≠ PrefixExpiryKey i.Expiry i.RawPrefix → k ≠ PrefixInfoKey pfx →
        dbGet db2 k = dbGet db k) := by
  constructor
  · intro hp
    refine ⟨dbPut (dbPut (dbDelete db (PrefixExpiryKey prev i.RawPrefix))
        (PrefixExpiryKey i.Expiry i.RawPrefix) pfx) (PrefixInfoKey pfx) (P.Marshal i),
      by simp [PutPrefixInfo, hRaw, hp], ?_, ?_, ?_⟩
    · exact dbGet_dbPut_self _ _ _
    · rw [dbGet_dbPut_ne _ _ _ _ (expiryKey_ne_infoKey _ _ _)]
      exact dbGet_dbPut_self _ _ _
    · intro hne
      rw [dbGet_dbPut_ne _ _ _ _ (expiryKey_ne_infoKey _ _ _),
        dbGet_dbPut_ne _ _ _ _ hne]
      exact dbGet_dbDelete_self _ _
  · intro hn
    have hp : ¬ 0 ≤ prev := by omega
    refine ⟨dbPut (dbPut db (PrefixExpiryKey i.Expiry i.RawPrefix) pfx)
        (PrefixInfoKey pfx) (P.Marshal i), by simp [PutPrefixInfo, hRaw, hp], ?_⟩
    intro k hk1 hk2
    rw [dbGet_dbPut_ne _ _ _ _ hk2, dbGet_dbPut_ne _ _ _ _ hk1]

/-- C5 witness: the theorem applied at a concrete store, record and previous
expiry. -/
theorem C5_witness :
    infoE.RawPrefix ≠ shortEmpty ∧
    ((0 ≤ (3 : Int) → ∃ db2, PutPrefixInfo PR dbR [113] infoE 3 = .ok db2 ∧
      dbGet db2 (PrefixInfoKey [113]) = some (PR.Marshal infoE) ∧
      dbGet db2 (PrefixExpiryKey infoE.Expiry infoE.RawPrefix) = some [113] ∧
      (PrefixExpiryKey 3 infoE.RawPrefix ≠ PrefixExpiryKey infoE.Expiry infoE.RawPrefix →
        dbGet db2 (PrefixExpiryKey 3 infoE.RawPrefix) = none)) ∧
    ((3 : Int) < 0 → ∃ db2, PutPrefixInfo PR dbR [113] infoE 3 = .ok db2 ∧
      ∀ k, k ≠ PrefixExpiryKey infoE.Expiry infoE.RawPrefix → k ≠ PrefixInfoKey [113] →
        dbGet db2 k = dbGet dbR k)) :=
  ⟨by decide, C5_put_reindexes_expiry_schedule PR dbR [113] infoE 3 (by decide)⟩

/-- C6: the claim says any error return from Set/Delete execution leaves the
targeted namespace unchanged. On the delete of the namespace's last remaining
key the code first deletes the value record and only then fails on the
zero-divisor rent division (a Go runtime panic), so the failure leaves the
namespace partially mutated: the store differs from the starting one and the
value record is gone. -/
theorem C6_failed_delete_leaves_partial_write :
    (SetTx.Execute PA sDel 5 dbA).1 = .error .PanicDivByZero ∧
    (SetTx.Execute PA sDel 5 dbA).2 ≠ dbA ∧
    dbGet dbA (PrefixValueKey infoA.RawPrefix [107]) = some [118] ∧
    dbGet (SetTx.Execute PA sDel 5 dbA).2 (PrefixValueKey infoA.RawPrefix [107]) = none := by
  decide

/-- C7 counterexample: a Set transaction whose sender differs from the owner
but whose key holds the delimiter byte fails key validation, not Unauthorized,
so the claim's "regardless of key and value content" is false as stated. -/
theorem C7_counterexample_malformed_key :
    infoA.Owner ≠ sBadKey.Sender ∧
    (SetTx.Execute PA sBadKey 5 dbA).1 = .error .InvalidContents ∧
    (SetTx.Execute PA sBadKey 5 dbA).1 ≠ .error .Unauthorized := by decide

/-- C7 amended: for every Set transaction whose key passes key validation and
whose value is within the maximum size, targeting an existing namespace whose
owner differs from the sender, Execute fails Unauthorized whatever the key and
value content otherwise. -/
theorem C7_unauthorized_after_validation (P : Params) (s : SetTx) (blockTime : Int)
    (db : DB) (b : Bytes) (i : PrefixInfo)
    (hk : CheckKey s.Key = .ok ())
    (hv : s.Value.length ≤ P.MaxValueLength)
    (hg : dbGet db (PrefixInfoKey s.Prefix) = some b)
    (hu : P.Unmarshal b = .ok i)
    (ho : i.Owner ≠ s.Sender) :
    SetTx.Execute P s blockTime db = (.error .Unauthorized, db) := by
  have hnl : ¬ P.MaxValueLength < s.Value.length := Nat.not_lt.mpr hv
  simp [SetTx.Execute, hk, GetPrefixInfo, hg, hu, hnl, ho]

/-- C7 witness: the amended theorem applied to a well-formed unauthorized
transaction. -/
theorem C7_witness :
    CheckKey sAuthBad.Key = .ok () ∧
    sAuthBad.Value.length ≤ PA.MaxValueLength ∧
    dbGet dbA (PrefixInfoKey sAuthBad.Prefix) = some [99] ∧
    PA.Unmarshal [99] = .ok infoA ∧
    infoA.Owner ≠ sAuthBad.Sender ∧
    SetTx.Execute PA sAuthBad 5 dbA = (.error .Unauthorized, dbA) :=
  ⟨by decide, by decide, by decide, rfl, by decide,
    C7_unauthorized_after_validation PA sAuthBad 5 dbA [99] infoA (by decide) (by decide)
      (by decide) rfl (by decide)⟩

/-- C8 counterexample: on a namespace with no PrefixInfo record, GetValue
returns ok-none (nil, false, nil in Go), not the PrefixMissing error the claim
asserts for it. -/
theorem C8_counterexample_getvalue_no_error :
    GetValue PA [] [1] [2] = .ok none ∧
    GetValue PA [] [1] [2] ≠ .error .PrefixMissing := by decide

/-- C8 amended: on a prefix with no PrefixInfo record, PutPrefixKey and
DeletePrefixKey fail with PrefixMissing, while GetValue returns not-found with
no error. -/
theorem C8_missing_namespace_behaviour (P : Params) (db : DB) (pfx key value : Bytes)
    (h : dbGet db (PrefixInfoKey pfx) = none) :
    GetValue P db pfx key = .ok none ∧
    PutPrefixKey P db pfx key value = .error .PrefixMissing ∧
    DeletePrefixKey P db pfx key = .error .PrefixMissing := by
  refine ⟨?_, ?_, ?_⟩ <;> simp [GetValue, PutPrefixKey, DeletePrefixKey, GetPrefixInfo, h]

/-- C8 witness: the amended theorem applied to the empty store. -/
theorem C8_witness :
    dbGet ([] : DB) (PrefixInfoKey [1]) = none ∧
    (GetValue PA [] [1] [2] = .ok none ∧
     PutPrefixKey PA [] [1] [2] [3] = .error .PrefixMissing ∧
     DeletePrefixKey PA [] [1] [2] = .error .PrefixMissing) :=
  ⟨rfl, C8_missing_namespace_behaviour PA [] [1] [2] [3] rfl⟩

/-- C9: for an existing namespace, Range with the WithRangeLimit n option
(n positive) succeeds with a list (never an error, so never Go's nil slice:
the code initialises the result with make before iterating), the list holds at
most n pairs, every returned pair is a stored entry with the 23-byte
tag/raw-prefix header dropped from its key, and when no stored key matches the
scan the result is the empty list. -/
theorem C9_range_limit_bounds_and_strips (P : Params) (db : DB) (pfx key b : Bytes)
    (info : PrefixInfo) (n : Nat)
    (hb : dbGet db (PrefixInfoKey pfx) = some b)
    (hi : P.Unmarshal b = .ok info)
    (hn : 0 < n) :
    ∃ kvs, Range P db pfx key [WithRangeLimit n] = .ok kvs ∧
      kvs.length ≤ n ∧
      (∀ kv ∈ kvs, ∃ e, e ∈ db ∧ kv = ⟨e.1.drop (2 + shortIDLen + 1), e.2⟩) ∧
      (dbGet db (PrefixValueKey info.RawPrefix key) = none → kvs = []) := by
  refine ⟨rangeLoop (PrefixValueKey info.RawPrefix key) [] n
      (iterFrom db (PrefixValueKey info.RawPrefix key)) [], ?_, ?_, ?_, ?_⟩
  · simp [Range, GetPrefixInfo, hb, hi, applyOpts, WithRangeLimit]
  · exact rangeLoop_length_le _ _ n _ [] hn (Nat.zero_le n)
  · intro kv hkv
    rcases rangeLoop_mem _ _ _ _ _ kv hkv with h | ⟨e, he, heq⟩
    · cases h
    · exact ⟨e, mem_iterFrom he, heq⟩
  · intro hnone
    apply rangeLoop_nil_end
    intro e he
    exact dbGet_eq_none db _ hnone e (mem_iterFrom he)

/-- C9 witness: the theorem applied at a concrete store holding one value
record. -/
theorem C9_witness :
    dbGet dbR (PrefixInfoKey [112]) = some [99] ∧
    PR.Unmarshal [99] = .ok infoR ∧
    0 < 5 ∧
    (∃ kvs, Range PR dbR [112] [107] [WithRangeLimit 5] = .ok kvs ∧
      kvs.length ≤ 5 ∧
      (∀ kv ∈ kvs, ∃ e, e ∈ dbR ∧ kv = ⟨e.1.drop (2 + shortIDLen + 1), e.2⟩) ∧
      (dbGet dbR (PrefixValueKey infoR.RawPrefix [107]) = none → kvs = [])) :=
  ⟨by decide, rfl, by decide,
    C9_range_limit_bounds_and_strips PR dbR [112] [107] [99] infoR 5 (by decide) rfl (by decide)⟩
